import Mathlib

/-!
Verification of the `list` command of the sinker repository
(src/internal/commands/list.go), shallowly embedded in Lean 4.

Go strings are modelled as `List Char`; Go's `strings.Split` on a
single-character separator is `splitChar`, `bytes.Split` on a multi-byte
separator is `splitSeq`, `strings.Contains` is `hasSub` (membership `∈`
for single-character needles), `strings.HasPrefix`/`strings.TrimPrefix`
are `hasPre`/`trimPre`, and `strings.EqualFold` is `eqFold` (simple case
folding, which agrees with Go on ASCII input).  Out-of-range slice
indexing (a Go panic) is modelled with `Option`/`Except`: `none` or
`.error .panicked` is the crash branch.
-/

namespace Sinker

/-- Go strings, modelled as lists of characters. -/
abbrev Str := List Char

/-- Convenience conversion from Lean string literals. -/
def strL (s : String) : Str := s.data

/-- `hasPre p s` is true iff `p` is a prefix of `s` (Go `strings.HasPrefix(s, p)`). -/
def hasPre : Str → Str → Bool
  | [], _ => true
  | _ :: _, [] => false
  | p :: ps, c :: cs => p = c && hasPre ps cs

/-- `hasSub n h` is true iff `n` occurs as a contiguous substring of `h`
(Go `strings.Contains(h, n)` / `bytes.Contains(h, n)`). -/
def hasSub (needle : Str) : Str → Bool
  | [] => needle.isEmpty
  | c :: t => hasPre needle (c :: t) || hasSub needle t

/-- Go `strings.TrimPrefix(s, pre)`. -/
def trimPre (s pre : Str) : Str :=
  if hasPre pre s then s.drop pre.length else s

/-- Go `strings.Split(s, sep)` for a single-character separator:
always returns at least one token, never returns an empty list. -/
def splitChar (sep : Char) : Str → List Str
  | [] => [[]]
  | c :: cs =>
    match splitChar sep cs with
    | [] => [[]]
    | r :: rs => if c = sep then [] :: r :: rs else (c :: r) :: rs

/-- Substring of `s` strictly before the first occurrence of `sep`
(all of `s` when `sep` does not occur). -/
def upToChar (sep : Char) : Str → Str
  | [] => []
  | c :: cs => if c = sep then [] else c :: upToChar sep cs

/-- Substring of `s` strictly after the first occurrence of `sep`
(empty when `sep` does not occur). -/
def pastChar (sep : Char) : Str → Str
  | [] => []
  | c :: cs => if c = sep then cs else pastChar sep cs

/-- Go `strings.EqualFold`, modelled as equality after simple
character-wise lower-casing (identical to Go's folding on ASCII). -/
def eqFold (a b : Str) : Bool :=
  a.map Char.toLower = b.map Char.toLower

example : strL "ab" = ['a', 'b'] := by decide
example : hasPre (strL "ab") (strL "abc") = true := by decide
example : hasSub (strL "=:") (strL "a=:b") = true := by decide
example : hasSub (strL "=:") (strL "a=b:c") = false := by decide
example : splitChar ':' (strL "a:b:c") = [strL "a", strL "b", strL "c"] := by decide
example : splitChar ':' (strL "::") = [[], [], []] := by decide
example : upToChar ':' (strL "a:b:c") = strL "a" := by decide
example : pastChar ':' (strL "a:b:c") = strL "b:c" := by decide
example : trimPre (strL "a/b") (strL "a/") = strL "b" := by decide
example : eqFold (strL "nginx:1.0") (strL "NGINX:1.0") = true := by decide

/-! ## The data model and the image string parser (list.go 20-36, 157-189) -/

/-- The `DockerImage` struct of list.go. -/
structure DockerImage where
  Host : Str
  Name : Str
  Repository : Str
  Version : Str
deriving DecidableEq, Repr

/-- The substring `".io"` used by the host-detection heuristic. -/
def ioStr : Str := strL ".io"

/-- The `DockerImage.String` method of list.go: render as
`host/repository:version`, omitting the host segment and its trailing
slash when `Host` is empty. -/
def DockerImage.String (d : DockerImage) : Str :=
  (if d.Host ≠ [] then d.Host ++ ['/'] else []) ++ d.Repository ++ [':'] ++ d.Version

/-- The body of the loop of `marshalImages` after the colon split: given
`imageTokens[0]` (the part before the first colon) and the version token
`imageTokens[1]`, derive `Host`, `Name`, `Repository` exactly as
list.go 161-183 does. -/
def parsePath (t0 version : Str) : DockerImage :=
  let imagePaths := splitChar '/' t0
  let imageName := imagePaths.getLastD []
  let imageHost := if hasSub ioStr (imagePaths.headD []) then imagePaths.headD [] else []
  let imageRepository := if imageHost ≠ [] then trimPre t0 (imageHost ++ ['/']) else t0
  { Host := imageHost, Name := imageName, Repository := imageRepository, Version := version }

/-- One iteration of `marshalImages` (list.go 159-185):
`strings.Split(image, ":")` followed by indexing tokens `[0]` and `[1]`.
Indexing `[1]` panics when the string has no colon; the panic is the
`none` branch. -/
def marshalOne (image : Str) : Option DockerImage :=
  match splitChar ':' image with
  | t0 :: version :: _ => some (parsePath t0 version)
  | _ => none

/-- `marshalImages` (list.go 157-189), with `none` when any iteration
panics. -/
def marshalImages : List Str → Option (List DockerImage)
  | [] => some []
  | image :: rest =>
    match marshalOne image with
    | none => none
    | some d => (marshalImages rest).map (fun ds => d :: ds)

/-! ## Deduplication (list.go 280-299) -/

/-- `contains` (list.go 280-288): case-insensitive membership via
`strings.EqualFold`. -/
def contains (images : List Str) (image : Str) : Bool :=
  images.any (fun currentImage => eqFold currentImage image)

/-- The body of the `dedupeImages` loop. -/
def dedupeStep (dedupedImageList : List Str) (image : Str) : List Str :=
  if contains dedupedImageList image then dedupedImageList
  else dedupedImageList ++ [image]

/-- `dedupeImages` (list.go 290-299). -/
def dedupeImages (images : List Str) : List Str :=
  images.foldl dedupeStep []

/-! ## Container extraction (list.go 205-230) -/

/-- The fields of `corev1.Container` that list.go reads. -/
structure ContainerM where
  image : Str
  args : List Str
deriving DecidableEq

/-- The literal `"=:"`. -/
def eqColonStr : Str := strL "=:"

/-- `getImagesFromContainerArgs` (list.go 218-230).  An argument is
skipped unless it contains `:` and does not contain `"=:"`; a kept
argument is split on `=` and token `[1]` is emitted — indexing `[1]`
panics (`none`) when the argument has no `=`. -/
def getImagesFromContainerArgs : List Str → Option (List Str)
  | [] => some []
  | arg :: rest =>
    if ¬ (':' ∈ arg) ∨ hasSub eqColonStr arg = true then
      getImagesFromContainerArgs rest
    else
      match (splitChar '=' arg).get? 1 with
      | none => none
      | some v => (getImagesFromContainerArgs rest).map (fun images => v :: images)

/-- `getImagesFromContainers` (list.go 205-216): for each container the
image field first, then the images found in its arguments. -/
def getImagesFromContainers : List ContainerM → Option (List Str)
  | [] => some []
  | container :: rest =>
    match getImagesFromContainerArgs container.args with
    | none => none
    | some argImages =>
      match getImagesFromContainers rest with
      | none => none
      | some images => some (container.image :: (argImages ++ images))

/-! ## Per-document extraction (list.go 87-155) -/

/-- The pod-template shape `spec.template.spec.{initContainers,containers}`
that the generic branch parses. -/
structure PodTemplateM where
  initContainers : List ContainerM
  containers : List ContainerM
deriving DecidableEq

/-- The fields of a Prometheus/Alertmanager resource that list.go reads
(`spec.baseImage` and `spec.version`). -/
structure PromSpecModel where
  baseImage : Str
  version : Str
deriving DecidableEq

/-- One YAML document, abstracted by the outcomes of the four
`yaml.Unmarshal` calls list.go may apply to it: `none` means that
unmarshalling fails. -/
structure DocModel where
  kindParse : Option Str
  promParse : Option PromSpecModel
  amParse : Option PromSpecModel
  genericParse : Option PodTemplateM

/-- How a run can fail: a propagated error, or a Go panic. -/
inductive Failure
  | fatalError
  | panicked
deriving DecidableEq

/-- The generic-kind extraction of list.go 141-147: init containers
first (guarded by `len > 0`), then regular containers. -/
def extractTemplate (t : PodTemplateM) : Option (List Str) :=
  match (if t.initContainers.length > 0 then getImagesFromContainers t.initContainers else some []) with
  | none => none
  | some initImgs =>
    match (if t.containers.length > 0 then getImagesFromContainers t.containers else some []) with
    | none => none
    | some contImgs => some (initImgs ++ contImgs)

/-- One iteration of the document loop of `GetImagesInPath`
(list.go 107-148): sniff `kind` (skip on failure), special-case
`Prometheus` and `Alertmanager` (fatal on parse failure), otherwise try
the pod-template shape (skip on failure). -/
def extractDoc (d : DocModel) : Except Failure (List Str) :=
  match d.kindParse with
  | none => .ok []
  | some kind =>
    if kind = strL "Prometheus" then
      match d.promParse with
      | none => .error .fatalError
      | some prometheus => .ok [prometheus.baseImage ++ ':' :: prometheus.version]
    else if kind = strL "Alertmanager" then
      match d.amParse with
      | none => .error .fatalError
      | some alertmanager => .ok [alertmanager.baseImage ++ ':' :: alertmanager.version]
    else
      match d.genericParse with
      | none => .ok []
      | some contents =>
        match extractTemplate contents with
        | none => .error .panicked
        | some imgs => .ok imgs

/-- The whole document loop, accumulating `imageList` in order and
aborting at the first failure. -/
def extractAllDocs : List DocModel → Except Failure (List Str)
  | [] => .ok []
  | d :: ds =>
    match extractDoc d with
    | .error e => .error e
    | .ok imgs =>
      match extractAllDocs ds with
      | .error e => .error e
      | .ok rest => .ok (imgs ++ rest)

/-- `GetImagesInPath` (list.go 87-155) over an already-split sequence of
documents: extract, dedupe, marshal. -/
def GetImagesInPath (docs : List DocModel) : Except Failure (List DockerImage) :=
  match extractAllDocs docs with
  | .error e => .error e
  | .ok imageList =>
    match marshalImages (dedupeImages imageList) with
    | none => .error .panicked
    | some marshaled => .ok marshaled

/-! ## Document splitting (list.go 301-309) -/

/-- Worker for `splitSeq`, structurally recursive on a fuel that bounds
the input length; the zero-fuel fallback is unreachable whenever
`fuel ≥ s.length`. -/
def splitSeqFuel (sep : Str) : Nat → Str → List Str
  | _, [] => [[]]
  | 0, s => [s]
  | fuel + 1, c :: rest =>
    if sep ≠ [] ∧ hasPre sep (c :: rest) = true then
      [] :: splitSeqFuel sep fuel ((c :: rest).drop sep.length)
    else
      match splitSeqFuel sep fuel rest with
      | [] => [[c]]
      | r :: rs => (c :: r) :: rs

/-- Go `bytes.Split(s, sep)` for a non-empty separator: split around
each non-overlapping leftmost occurrence of `sep`. -/
def splitSeq (sep : Str) (s : Str) : List Str :=
  splitSeqFuel sep s.length s

/-- `doSplit` (list.go 301-309): the separator uses `\r\n` only when the
data contains `\r\n` AND `runtime.GOOS == "windows"` (modelled by the
`isWindows` flag); the document separator is `linebreak ++ "---" ++
linebreak`. -/
def doSplit (isWindows : Bool) (data : Str) : List Str :=
  let linebreak := if hasSub (strL "\r\n") data && isWindows then strL "\r\n" else strL "\n"
  splitSeq (linebreak ++ strL "---" ++ linebreak) data

/-! ## The list command driver (list.go 63-85, 191-203) -/

/-- `writeListToFile` (list.go 191-203): fails iff `os.Create` fails,
which is modelled by the `createFails` oracle. -/
def writeListToFile (_images : List DockerImage) (createFails : Bool) : Except Failure Unit :=
  if createFails then .error .fatalError else .ok ()

/-- The tail of `runListCommand` (list.go 63-85) after `GetImagesInPath`:
when the output flag is non-empty, `writeListToFile` is called but its
return value is DISCARDED (list.go 77), exactly as in the source. -/
def runListCommand (imagesResult : Except Failure (List DockerImage))
    (output : Str) (createFails : Bool) : Except Failure Unit :=
  match imagesResult with
  | .error e => .error e
  | .ok images =>
    if output ≠ [] then
      let _ := writeListToFile images createFails
      .ok ()
    else
      .ok ()

example : marshalOne (strL "quay.io/prometheus/prometheus:v2.0.0") =
    some { Host := strL "quay.io", Name := strL "prometheus",
           Repository := strL "prometheus/prometheus", Version := strL "v2.0.0" } := by decide
example : marshalOne (strL "nginx:1.0") =
    some { Host := [], Name := strL "nginx",
           Repository := strL "nginx", Version := strL "1.0" } := by decide
example : marshalOne (strL "nginx") = none := by decide
example : dedupeImages [strL "nginx:1.0", strL "NGINX:1.0"] = [strL "nginx:1.0"] := by decide
example : getImagesFromContainerArgs [strL "--proxy-image=gcr.io/proj/proxy:1.0"] =
    some [strL "gcr.io/proj/proxy:1.0"] := by decide
example : getImagesFromContainerArgs [strL "host:8080"] = none := by decide
example : getImagesFromContainerArgs [strL "a=b=c:d"] = some [strL "b"] := by decide
example : doSplit false (strL "a\n---\nb") = [strL "a", strL "b"] := by decide
example : doSplit true (strL "a\r\n---\r\nb") = [strL "a", strL "b"] := by decide
example : doSplit false (strL "a\r\n---\r\nb") = [strL "a\r\n---\r\nb"] := by decide
example : doSplit false [] = [[]] := by decide

/-! ## Lemmas about the string primitives -/

theorem hasPre_append_self (p r : Str) : hasPre p (p ++ r) = true := by
  induction p with
  | nil => rfl
  | cons x xs ih => simp [hasPre, ih]

theorem eq_append_of_hasPre {p s : Str} (h : hasPre p s = true) : ∃ r, s = p ++ r := by
  induction p generalizing s with
  | nil => exact ⟨s, rfl⟩
  | cons x xs ih =>
    cases s with
    | nil => simp [hasPre] at h
    | cons c cs =>
      simp only [hasPre, Bool.and_eq_true, decide_eq_true_eq] at h
      obtain ⟨r, hr⟩ := ih h.2
      exact ⟨r, by rw [← h.1, hr]; rfl⟩

theorem hasPre_length_le {p s : Str} (h : hasPre p s = true) : p.length ≤ s.length := by
  obtain ⟨r, rfl⟩ := eq_append_of_hasPre h
  simp

theorem ne_nil_of_hasSub_io {s : Str} (hh : hasSub ioStr s = true) : s ≠ [] := by
  cases s with
  | nil => revert hh; decide
  | cons c cs => simp

theorem splitChar_ne_nil (sep : Char) (s : Str) : splitChar sep s ≠ [] := by
  cases s with
  | nil => simp [splitChar]
  | cons c cs =>
    simp only [splitChar]
    cases h : splitChar sep cs with
    | nil => simp
    | cons r rs => by_cases hc : c = sep <;> simp [hc]

theorem splitChar_headD (sep : Char) (s : Str) :
    (splitChar sep s).headD [] = upToChar sep s := by
  induction s with
  | nil => rfl
  | cons c cs ih =>
    simp only [splitChar, upToChar]
    cases h : splitChar sep cs with
    | nil => exact absurd h (splitChar_ne_nil sep cs)
    | cons r rs =>
      rw [h] at ih
      simp only [List.headD_cons] at ih
      by_cases hc : c = sep
      · simp [hc]
      · simp [hc, ih]

theorem not_mem_upToChar (sep : Char) (s : Str) : sep ∉ upToChar sep s := by
  induction s with
  | nil => simp [upToChar]
  | cons c cs ih =>
    simp only [upToChar]
    by_cases hc : c = sep
    · simp [hc]
    · simp only [if_neg hc, List.mem_cons, not_or]
      exact ⟨fun h => hc h.symm, ih⟩

theorem mem_of_mem_upToChar {sep c : Char} {s : Str} (h : c ∈ upToChar sep s) : c ∈ s := by
  induction s with
  | nil => simp [upToChar] at h
  | cons a as ih =>
    by_cases ha : a = sep
    · simp [upToChar, ha] at h
    · simp only [upToChar, if_neg ha, List.mem_cons] at h
      rcases h with h | h
      · exact h ▸ List.mem_cons_self a as
      · exact List.mem_cons_of_mem a (ih h)

theorem upToChar_of_not_mem {sep : Char} {s : Str} (h : sep ∉ s) : upToChar sep s = s := by
  induction s with
  | nil => rfl
  | cons c cs ih =>
    simp only [List.mem_cons, not_or] at h
    have hne : ¬(c = sep) := fun hc => h.1 hc.symm
    simp only [upToChar, if_neg hne]
    rw [ih h.2]

theorem upToChar_append_pastChar {sep : Char} {s : Str} (h : sep ∈ s) :
    upToChar sep s ++ sep :: pastChar sep s = s := by
  induction s with
  | nil => cases h
  | cons c cs ih =>
    by_cases hc : c = sep
    · simp [upToChar, pastChar, hc]
    · have h' : sep ∈ cs := by
        rcases List.mem_cons.mp h with h | h
        · exact absurd h.symm hc
        · exact h
      simp only [upToChar, pastChar, if_neg hc, List.cons_append]
      rw [ih h']

theorem splitChar_of_not_mem {sep : Char} {s : Str} (h : sep ∉ s) : splitChar sep s = [s] := by
  induction s with
  | nil => rfl
  | cons c cs ih =>
    simp only [List.mem_cons, not_or] at h
    have hne : ¬(c = sep) := fun hc => h.1 hc.symm
    simp only [splitChar, ih h.2, if_neg hne]

theorem splitChar_append {sep : Char} {a : Str} (ha : sep ∉ a) (b : Str) :
    splitChar sep (a ++ sep :: b) = a :: splitChar sep b := by
  induction a with
  | nil =>
    simp only [List.nil_append, splitChar]
    cases hb : splitChar sep b with
    | nil => exact absurd hb (splitChar_ne_nil sep b)
    | cons r rs => simp [hb]
  | cons x xs ih =>
    simp only [List.mem_cons, not_or] at ha
    have hne : ¬(x = sep) := fun hx => ha.1 hx.symm
    simp only [List.cons_append, splitChar, List.append_eq, ih ha.2, if_neg hne]

theorem splitChar_of_mem {sep : Char} {s : Str} (h : sep ∈ s) :
    splitChar sep s = upToChar sep s :: splitChar sep (pastChar sep s) := by
  conv_lhs => rw [← upToChar_append_pastChar h]
  exact splitChar_append (not_mem_upToChar sep s) (pastChar sep s)

theorem mem_of_mem_trimPre {c : Char} {s p : Str} (h : c ∈ trimPre s p) : c ∈ s := by
  unfold trimPre at h
  split at h
  · exact (List.drop_sublist _ _).mem h
  · exact h

/-! ## Deduplication: the code agrees with the first-occurrences contract -/

/-- The deduplication contract as the spec words it: keep each element,
drop every later element that is case-insensitively equal to it —
i.e. the subsequence of first occurrences, with original order and
casing. -/
def specDedup : List Str → List Str
  | [] => []
  | x :: xs => x :: specDedup (xs.filter (fun y => !(eqFold x y)))
  termination_by l => l.length
  decreasing_by
    simp only [List.length_cons]
    exact Nat.lt_succ_of_le (List.length_filter_le _ _)

theorem contains_append (acc : List Str) (x y : Str) :
    contains (acc ++ [x]) y = (contains acc y || eqFold x y) := by
  simp [contains, List.any_append]

theorem filter_contains_snoc (acc : List Str) (x : Str) (xs : List Str) :
    xs.filter (fun y => !(contains (acc ++ [x]) y)) =
      (xs.filter (fun y => !(contains acc y))).filter (fun y => !(eqFold x y)) := by
  rw [List.filter_filter]
  apply List.filter_congr
  intro y _
  rw [contains_append, Bool.not_or, Bool.and_comm]

theorem dedupe_go (l : List Str) : ∀ acc : List Str,
    l.foldl dedupeStep acc = acc ++ specDedup (l.filter (fun y => !(contains acc y))) := by
  induction l with
  | nil => intro acc; simp [specDedup]
  | cons x xs ih =>
    intro acc
    simp only [List.foldl_cons]
    by_cases hx : contains acc x = true
    · rw [show dedupeStep acc x = acc from if_pos hx]
      rw [ih acc]
      have hfil : (x :: xs).filter (fun y => !(contains acc y)) =
          xs.filter (fun y => !(contains acc y)) := by
        simp [List.filter_cons, hx]
      rw [hfil]
    · have hx' : contains acc x = false := by simpa using hx
      rw [show dedupeStep acc x = acc ++ [x] from if_neg (by simp [hx'])]
      rw [ih (acc ++ [x])]
      have hfil : (x :: xs).filter (fun y => !(contains acc y)) =
          x :: xs.filter (fun y => !(contains acc y)) := by
        simp [List.filter_cons, hx']
      rw [hfil, filter_contains_snoc, List.append_assoc]
      congr 1
      simp only [specDedup]
      rfl

theorem dedupeImages_eq_specDedup (l : List Str) : dedupeImages l = specDedup l := by
  rw [dedupeImages, dedupe_go l []]
  simp only [List.nil_append]
  congr 1
  calc l.filter (fun y => !(contains [] y)) = l.filter (fun _ => true) := by
        apply List.filter_congr
        intro y _
        rfl
    _ = l := List.filter_true l

/-! ## The image string parser: first-colon behaviour and round-trip -/

theorem parsePath_Host (t0 v : Str) :
    (parsePath t0 v).Host =
      if hasSub ioStr ((splitChar '/' t0).headD []) then (splitChar '/' t0).headD []
      else [] := rfl

theorem parsePath_Name (t0 v : Str) :
    (parsePath t0 v).Name = (splitChar '/' t0).getLastD [] := rfl

theorem parsePath_Version (t0 v : Str) : (parsePath t0 v).Version = v := rfl

theorem parsePath_Repository (t0 v : Str) :
    (parsePath t0 v).Repository =
      if (parsePath t0 v).Host ≠ [] then trimPre t0 ((parsePath t0 v).Host ++ ['/'])
      else t0 := rfl

/-- `marshalImages` splits each raw string at its FIRST colon: the path
part handed to the host/name/repository logic is the prefix before the
first `:` and the version is the token between the first and the second
`:` (the entire remainder when there is only one `:`). -/
theorem marshalOne_of_mem {s : Str} (h : ':' ∈ s) :
    marshalOne s = some (parsePath (upToChar ':' s) (upToChar ':' (pastChar ':' s))) := by
  rw [marshalOne, splitChar_of_mem h]
  cases h2 : splitChar ':' (pastChar ':' s) with
  | nil => exact absurd h2 (splitChar_ne_nil _ _)
  | cons r rs =>
    have hr : r = upToChar ':' (pastChar ':' s) := by
      have hh := splitChar_headD ':' (pastChar ':' s)
      rw [h2] at hh
      simpa using hh
    rw [hr]

theorem not_mem_colon_parsePath_Host {t0 v : Str} (h0 : ':' ∉ t0) :
    ':' ∉ (parsePath t0 v).Host := by
  rw [parsePath_Host]
  split
  · rw [splitChar_headD]
    exact fun hm => h0 (mem_of_mem_upToChar hm)
  · simp

theorem not_mem_colon_parsePath_Repository {t0 v : Str} (h0 : ':' ∉ t0) :
    ':' ∉ (parsePath t0 v).Repository := by
  rw [parsePath_Repository]
  split
  · exact fun hm => h0 (mem_of_mem_trimPre hm)
  · exact h0

/-- `DockerImage.String` always renders as `front ++ ':' :: Version`
where `front` is the host part followed by the repository. -/
theorem dockerImageString_decomp (d : DockerImage) :
    DockerImage.String d =
      ((if d.Host ≠ [] then d.Host ++ ['/'] else []) ++ d.Repository) ++ ':' :: d.Version := by
  rw [DockerImage.String]
  simp [List.append_assoc]

theorem not_mem_colon_front {t0 v : Str} (h0 : ':' ∉ t0) :
    ':' ∉ ((if (parsePath t0 v).Host ≠ [] then (parsePath t0 v).Host ++ ['/'] else []) ++
      (parsePath t0 v).Repository) := by
  intro hm
  rcases List.mem_append.mp hm with hm | hm
  · split at hm
    · rcases List.mem_append.mp hm with hm | hm
      · exact not_mem_colon_parsePath_Host (v := v) h0 hm
      · simp at hm
    · simp at hm
  · exact not_mem_colon_parsePath_Repository (v := v) h0 hm

/-- Parsing the rendering of a parsed image yields `some` of the front
part and the version again. -/
theorem marshalOne_render {t0 v : Str} (h0 : ':' ∉ t0) (hv : ':' ∉ v) :
    marshalOne (DockerImage.String (parsePath t0 v)) =
      some (parsePath
        ((if (parsePath t0 v).Host ≠ [] then (parsePath t0 v).Host ++ ['/'] else []) ++
          (parsePath t0 v).Repository)
        v) := by
  rw [dockerImageString_decomp, parsePath_Version, marshalOne,
    splitChar_append (not_mem_colon_front h0) v, splitChar_of_not_mem hv]

theorem getLastD_singleton (a : Str) : ([a] : List Str).getLastD [] = a := rfl

theorem getLastD_pair (a b : Str) : ([a, b] : List Str).getLastD [] = b := rfl

theorem trimPre_append (a b : Str) : trimPre (a ++ b) a = b := by
  unfold trimPre
  rw [if_pos (hasPre_append_self a b)]
  exact List.drop_left a b

theorem front_eq_aux {A B t0 : Str} (hdec : (A ++ ['/']) ++ B = t0) :
    (A ++ ['/']) ++ trimPre t0 (A ++ ['/']) = t0 := by
  subst hdec
  rw [trimPre_append]

theorem front_eq_of_host_nil {t0 v : Str} (h : (parsePath t0 v).Host = []) :
    ((if (parsePath t0 v).Host ≠ [] then (parsePath t0 v).Host ++ ['/'] else []) ++
      (parsePath t0 v).Repository) = t0 := by
  rw [parsePath_Repository, h]
  simp

theorem front_eq_of_slash {t0 : Str} (v : Str) (hs : '/' ∈ t0) :
    ((if (parsePath t0 v).Host ≠ [] then (parsePath t0 v).Host ++ ['/'] else []) ++
      (parsePath t0 v).Repository) = t0 := by
  by_cases hio : hasSub ioStr ((splitChar '/' t0).headD []) = true
  · have hhost : (parsePath t0 v).Host = (splitChar '/' t0).headD [] := by
      rw [parsePath_Host, if_pos hio]
    have hhd : (splitChar '/' t0).headD [] = upToChar '/' t0 := splitChar_headD '/' t0
    have hdec : (upToChar '/' t0 ++ ['/']) ++ pastChar '/' t0 = t0 := by
      rw [List.append_assoc]
      exact upToChar_append_pastChar hs
    have hne : (parsePath t0 v).Host ≠ [] := by
      rw [hhost]
      exact ne_nil_of_hasSub_io hio
    rw [if_pos hne, parsePath_Repository, if_pos hne, hhost, hhd]
    exact front_eq_aux hdec
  · have hhost : (parsePath t0 v).Host = [] := by rw [parsePath_Host, if_neg hio]
    exact front_eq_of_host_nil hhost

theorem parsePath_no_slash {t0 : Str} (v : Str) (hs : '/' ∉ t0)
    (hio : hasSub ioStr t0 = true) :
    parsePath t0 v = { Host := t0, Name := t0, Repository := t0, Version := v } := by
  have hsp : splitChar '/' t0 = [t0] := splitChar_of_not_mem hs
  have hnp : hasPre (t0 ++ ['/']) t0 = false := by
    cases h : hasPre (t0 ++ ['/']) t0
    · rfl
    · have := hasPre_length_le h
      simp at this
  have hne : t0 ≠ [] := ne_nil_of_hasSub_io hio
  unfold parsePath
  rw [hsp]
  simp only [List.headD_cons, getLastD_singleton, hio, if_true]
  rw [if_pos hne]
  unfold trimPre
  rw [hnp]
  simp

theorem parsePath_front_no_slash {t0 : Str} (v : Str) (hs : '/' ∉ t0)
    (hio : hasSub ioStr t0 = true) :
    parsePath ((t0 ++ ['/']) ++ t0) v =
      { Host := t0, Name := t0, Repository := t0, Version := v } := by
  have hsp : splitChar '/' ((t0 ++ ['/']) ++ t0) = [t0, t0] := by
    have hassoc : (t0 ++ ['/']) ++ t0 = t0 ++ '/' :: t0 := by
      rw [List.append_assoc]
      rfl
    rw [hassoc, splitChar_append hs, splitChar_of_not_mem hs]
  have hne : t0 ≠ [] := ne_nil_of_hasSub_io hio
  unfold parsePath
  rw [hsp]
  simp only [List.headD_cons, getLastD_pair, hio, if_true]
  rw [if_pos hne, trimPre_append]

theorem marshalOne_roundTrip {t0 v : Str} (h0 : ':' ∉ t0) (hv : ':' ∉ v) :
    marshalOne (DockerImage.String (parsePath t0 v)) = some (parsePath t0 v) := by
  rw [marshalOne_render h0 hv]
  by_cases hs : '/' ∈ t0
  · rw [front_eq_of_slash v hs]
  · by_cases hio : hasSub ioStr ((splitChar '/' t0).headD []) = true
    · have hhd : (splitChar '/' t0).headD [] = t0 := by
        rw [splitChar_of_not_mem hs]
        rfl
      rw [hhd] at hio
      have hfront : ((if (parsePath t0 v).Host ≠ [] then (parsePath t0 v).Host ++ ['/'] else []) ++
          (parsePath t0 v).Repository) = (t0 ++ ['/']) ++ t0 := by
        rw [parsePath_no_slash v hs hio]
        simp [ne_nil_of_hasSub_io hio]
      rw [hfront, parsePath_front_no_slash v hs hio, parsePath_no_slash v hs hio]
    · have hhost : (parsePath t0 v).Host = [] := by rw [parsePath_Host, if_neg hio]
      rw [front_eq_of_host_nil hhost]

/-! ## Spec-side definitions for the last-colon reading of the claim -/

/-- The substring after the LAST `:` of `s` (what the claim says the tag
is). -/
def afterLastColon (s : Str) : Str :=
  (s.reverse.takeWhile (fun c => c != ':')).reverse

/-- The substring before the LAST `:` of `s` (what the claim says the
path part is). -/
def beforeLastColon (s : Str) : Str :=
  ((s.reverse.dropWhile (fun c => c != ':')).drop 1).reverse

example : afterLastColon (strL "a/b:1.0:2.0") = strL "2.0" := by decide
example : beforeLastColon (strL "a/b:1.0:2.0") = strL "a/b:1.0" := by decide

/-! ## Claim theorems -/

/-- C2 counterexample: on `a/b:1.0:2.0` the parser's version is `1.0`
(the token after the FIRST colon) and its repository is `a/b`, whereas
the claim's last-colon reading demands tag `2.0` and path part
`a/b:1.0`. -/
theorem c2_counterexample :
    (marshalOne (strL "a/b:1.0:2.0")).map DockerImage.Version = some (strL "1.0")
  ∧ (marshalOne (strL "a/b:1.0:2.0")).map DockerImage.Repository = some (strL "a/b")
  ∧ afterLastColon (strL "a/b:1.0:2.0") = strL "2.0"
  ∧ beforeLastColon (strL "a/b:1.0:2.0") = strL "a/b:1.0"
  ∧ strL "1.0" ≠ strL "2.0"
  ∧ strL "a/b" ≠ strL "a/b:1.0" := by decide

/-- C2 (amended): for every raw image string containing a `:`, the
parser splits at the FIRST colon: the path part handed to the
host/repository/name derivation is the substring before the first `:`,
and Version is the token between the first and the second `:` (the
whole remainder when there is only one `:`). -/
theorem c2_first_colon_split (s : Str) (h : ':' ∈ s) :
    marshalOne s = some (parsePath (upToChar ':' s) (upToChar ':' (pastChar ':' s))) :=
  marshalOne_of_mem h

theorem c2_witness :
    marshalOne (strL "a/b:1.0") =
      some (parsePath (upToChar ':' (strL "a/b:1.0"))
        (upToChar ':' (pastChar ':' (strL "a/b:1.0")))) :=
  c2_first_colon_split (strL "a/b:1.0") (by decide)

/-- C7: for every image string with at least one `:` and one `/`,
parsing succeeds and re-parsing the `host/repository:tag` rendering
yields the same ParsedImage — i.e. the rendering is equivalent to the
input under the `.io` host-detection heuristic. -/
theorem c7_roundtrip (s : Str) (hc : ':' ∈ s) (_hs : '/' ∈ s) :
    ∃ d, marshalOne s = some d ∧ marshalOne (DockerImage.String d) = some d := by
  refine ⟨parsePath (upToChar ':' s) (upToChar ':' (pastChar ':' s)),
    marshalOne_of_mem hc, ?_⟩
  exact marshalOne_roundTrip (not_mem_upToChar ':' s) (not_mem_upToChar ':' (pastChar ':' s))

theorem c7_witness :
    ∃ d, marshalOne (strL "quay.io/prometheus/prometheus:v2.0.0") = some d ∧
      marshalOne (DockerImage.String d) = some d :=
  c7_roundtrip (strL "quay.io/prometheus/prometheus:v2.0.0") (by decide) (by decide)

/-- C4 counterexample: `a=b=c:d` contains `:` and not `"=:"`, so it is
extracted — but the emitted string is `b`, the token between the first
and second `=`, not the portion `b=c:d` after the first `=` that the
claim demands. -/
theorem c4_counterexample :
    getImagesFromContainerArgs [strL "a=b=c:d"] = some [strL "b"]
  ∧ pastChar '=' (strL "a=b=c:d") = strL "b=c:d"
  ∧ strL "b" ≠ strL "b=c:d" := by decide

/-- C4 (amended): a container argument is extracted (without crashing)
iff it contains `:`, does not contain `"=:"`, and contains at least one
`=`; the emitted string is the substring strictly between the first and
second `=` (the whole remainder after the first `=` when there is only
one `=`).  A qualifying argument with no `=` crashes the run instead of
being extracted, and all other arguments are skipped. -/
theorem c4_arg_extraction (arg : Str) :
    getImagesFromContainerArgs [arg] =
      if (':' ∈ arg) ∧ hasSub eqColonStr arg = false then
        (if '=' ∈ arg then some [upToChar '=' (pastChar '=' arg)] else none)
      else some [] := by
  by_cases hq : (':' ∈ arg) ∧ hasSub eqColonStr arg = false
  · rw [if_pos hq]
    have hskip : ¬(¬(':' ∈ arg) ∨ hasSub eqColonStr arg = true) := by
      rcases hq with ⟨h1, h2⟩
      push_neg
      exact ⟨h1, by simp [h2]⟩
    rw [getImagesFromContainerArgs, if_neg hskip]
    by_cases he : '=' ∈ arg
    · rw [if_pos he, splitChar_of_mem he]
      cases h2 : splitChar '=' (pastChar '=' arg) with
      | nil => exact absurd h2 (splitChar_ne_nil _ _)
      | cons r rs =>
        have hr : r = upToChar '=' (pastChar '=' arg) := by
          have hh := splitChar_headD '=' (pastChar '=' arg)
          rw [h2] at hh
          simpa using hh
        simp [getImagesFromContainerArgs, hr]
    · rw [if_neg he, splitChar_of_not_mem he]
      rfl
  · rw [if_neg hq]
    have hskip : ¬(':' ∈ arg) ∨ hasSub eqColonStr arg = true := by
      by_cases h1 : ':' ∈ arg
      · right
        rcases Bool.eq_false_or_eq_true (hasSub eqColonStr arg) with h2 | h2
        · exact h2
        · exact absurd ⟨h1, h2⟩ hq
      · exact Or.inl h1
    rw [getImagesFromContainerArgs, if_pos hskip]
    rfl

/-- C10: the crash branch of argument extraction is reachable: the
argument `host:8080` contains `:`, contains no `"=:"` (indeed no `=` at
all), so it passes the filter, and indexing token 1 of its `=`-split is
out of range — the extraction crashes (`none`). -/
theorem c10_arg_crash_reachable :
    (':' ∈ strL "host:8080")
  ∧ hasSub eqColonStr (strL "host:8080") = false
  ∧ ('=' ∉ strL "host:8080")
  ∧ getImagesFromContainerArgs [strL "host:8080"] = none := by decide

/-! ## Emission order inside one pod-template document -/

theorem getImagesFromContainers_eq (f : ContainerM → List Str) :
    ∀ cs : List ContainerM,
      (∀ c ∈ cs, getImagesFromContainerArgs c.args = some (f c)) →
      getImagesFromContainers cs = some (cs.flatMap (fun c => c.image :: f c)) := by
  intro cs
  induction cs with
  | nil => intro _; rfl
  | cons c cs ih =>
    intro h
    have hc := h c (List.mem_cons_self c cs)
    have hrest := ih (fun x hx => h x (List.mem_cons_of_mem c hx))
    rw [getImagesFromContainers, hc, hrest, List.flatMap_cons]
    rfl

theorem extractTemplate_eq (f : ContainerM → List Str) (t : PodTemplateM)
    (h : ∀ c ∈ t.initContainers ++ t.containers,
        getImagesFromContainerArgs c.args = some (f c)) :
    extractTemplate t =
      some ((t.initContainers ++ t.containers).flatMap (fun c => c.image :: f c)) := by
  have h1 : getImagesFromContainers t.initContainers =
      some (t.initContainers.flatMap (fun c => c.image :: f c)) :=
    getImagesFromContainers_eq f _ (fun c hc => h c (List.mem_append_left _ hc))
  have h2 : getImagesFromContainers t.containers =
      some (t.containers.flatMap (fun c => c.image :: f c)) :=
    getImagesFromContainers_eq f _ (fun c hc => h c (List.mem_append_right _ hc))
  have g1 : (if t.initContainers.length > 0 then getImagesFromContainers t.initContainers
      else some []) = some (t.initContainers.flatMap (fun c => c.image :: f c)) := by
    cases ht : t.initContainers with
    | nil => simp
    | cons a as => rw [if_pos (by simp), ← ht, h1]
  have g2 : (if t.containers.length > 0 then getImagesFromContainers t.containers
      else some []) = some (t.containers.flatMap (fun c => c.image :: f c)) := by
    cases ht : t.containers with
    | nil => simp
    | cons a as => rw [if_pos (by simp), ← ht, h2]
  rw [extractTemplate, g1, g2, List.flatMap_append]

/-- The example document of the claim: a Deployment with two containers,
images `nginx:1.0` and `busybox:1.2`, and one container argument
`--proxy-image=gcr.io/proj/proxy:1.0`. -/
def c8example : PodTemplateM :=
  { initContainers := []
  , containers :=
      [ { image := strL "nginx:1.0", args := [] }
      , { image := strL "busybox:1.2", args := [strL "--proxy-image=gcr.io/proj/proxy:1.0"] } ] }

/-- C8: inside one pod-template document, init containers are processed
before regular containers, each list in its listed order, and each
container's image field is emitted before the images found in its
arguments; on the claim's example Deployment the three images come out
in exactly the claimed order. -/
theorem c8_emission_order :
    (∀ (t : PodTemplateM) (f : ContainerM → List Str),
        (∀ c ∈ t.initContainers ++ t.containers,
            getImagesFromContainerArgs c.args = some (f c)) →
        extractTemplate t =
          some ((t.initContainers ++ t.containers).flatMap (fun c => c.image :: f c)))
  ∧ extractTemplate c8example =
      some [strL "nginx:1.0", strL "busybox:1.2", strL "gcr.io/proj/proxy:1.0"] :=
  ⟨fun t f h => extractTemplate_eq f t h, by decide⟩

/-- Concrete template used to witness the order theorem. -/
def c8wTemplate : PodTemplateM :=
  { initContainers := [{ image := strL "init:1", args := [] }]
  , containers := [{ image := strL "app:2", args := [] }] }

theorem c8_witness :
    extractTemplate c8wTemplate =
      some ((c8wTemplate.initContainers ++ c8wTemplate.containers).flatMap
        (fun c => c.image :: (fun _ => ([] : List Str)) c)) :=
  c8_emission_order.1 c8wTemplate (fun _ => []) (by decide)

/-! ## Per-document severity and parser-precondition reachability -/

theorem extractAllDocs_append_ok {pre : List DocModel} {a : List Str}
    (h : extractAllDocs pre = .ok a) (rest : List DocModel) :
    extractAllDocs (pre ++ rest) =
      match extractAllDocs rest with
      | .error e => .error e
      | .ok b => .ok (a ++ b) := by
  induction pre generalizing a with
  | nil =>
    have ha : a = [] := by
      simp only [extractAllDocs] at h
      exact (Except.ok.inj h).symm
    subst ha
    simp only [List.nil_append]
    cases extractAllDocs rest with
    | error e => rfl
    | ok b => simp
  | cons d ds ih =>
    rw [extractAllDocs] at h
    cases hd : extractDoc d with
    | error e => rw [hd] at h; exact absurd h (by simp)
    | ok imgs =>
      rw [hd] at h
      cases hds : extractAllDocs ds with
      | error e => rw [hds] at h; exact absurd h (by simp)
      | ok rest' =>
        rw [hds] at h
        have ha : a = imgs ++ rest' := (Except.ok.inj h).symm
        subst ha
        rw [List.cons_append, extractAllDocs, hd, ih hds]
        cases extractAllDocs rest with
        | error e => rfl
        | ok b => simp [List.append_assoc]

theorem extractAllDocs_skip {d : DocModel} (hd : extractDoc d = .ok [])
    (pre ds : List DocModel) :
    extractAllDocs (pre ++ d :: ds) = extractAllDocs (pre ++ ds) := by
  induction pre with
  | nil =>
    simp only [List.nil_append, extractAllDocs, hd]
    cases extractAllDocs ds <;> simp
  | cons p ps ih =>
    simp only [List.cons_append, extractAllDocs, List.append_eq]
    rw [ih]

theorem extractDoc_kind_unparseable {d : DocModel} (h : d.kindParse = none) :
    extractDoc d = .ok [] := by
  simp only [extractDoc, h]

theorem extractDoc_generic_unparseable {d : DocModel} {k : Str}
    (h : d.kindParse = some k) (hp : k ≠ strL "Prometheus")
    (ha : k ≠ strL "Alertmanager") (hg : d.genericParse = none) :
    extractDoc d = .ok [] := by
  simp [extractDoc, h, hp, ha, hg]

theorem extractDoc_prom_fatal {d : DocModel}
    (h : d.kindParse = some (strL "Prometheus")) (hp : d.promParse = none) :
    extractDoc d = .error .fatalError := by
  simp [extractDoc, h, hp]

theorem extractDoc_am_fatal {d : DocModel}
    (h : d.kindParse = some (strL "Alertmanager")) (ha : d.amParse = none) :
    extractDoc d = .error .fatalError := by
  have hne : strL "Alertmanager" ≠ strL "Prometheus" := by decide
  simp [extractDoc, h, hne, ha]

theorem getImagesInPath_fatal {d : DocModel} (hd : extractDoc d = .error .fatalError)
    {pre : List DocModel} {a : List Str} (hpre : extractAllDocs pre = .ok a)
    (ds : List DocModel) :
    GetImagesInPath (pre ++ d :: ds) = .error .fatalError := by
  have hall : extractAllDocs (pre ++ d :: ds) = .error .fatalError := by
    rw [extractAllDocs_append_ok hpre]
    rw [extractAllDocs, hd]
  rw [GetImagesInPath, hall]

/-- C5: per-document error severity is asymmetric.  A document whose
`kind` cannot be parsed is silently skipped, a non-special document
whose pod-template parse fails is silently skipped (the run continues
identically in both cases), but a `Prometheus` or `Alertmanager`
document whose structural parse fails aborts the whole run with a
propagated error. -/
theorem c5_severity_asymmetry :
    (∀ (pre : List DocModel) (d : DocModel) (ds : List DocModel),
        d.kindParse = none →
        extractAllDocs (pre ++ d :: ds) = extractAllDocs (pre ++ ds))
  ∧ (∀ (pre : List DocModel) (d : DocModel) (ds : List DocModel) (k : Str),
        d.kindParse = some k → k ≠ strL "Prometheus" → k ≠ strL "Alertmanager" →
        d.genericParse = none →
        extractAllDocs (pre ++ d :: ds) = extractAllDocs (pre ++ ds))
  ∧ (∀ (pre : List DocModel) (d : DocModel) (ds : List DocModel) (a : List Str),
        extractAllDocs pre = .ok a →
        d.kindParse = some (strL "Prometheus") → d.promParse = none →
        GetImagesInPath (pre ++ d :: ds) = .error .fatalError)
  ∧ (∀ (pre : List DocModel) (d : DocModel) (ds : List DocModel) (a : List Str),
        extractAllDocs pre = .ok a →
        d.kindParse = some (strL "Alertmanager") → d.amParse = none →
        GetImagesInPath (pre ++ d :: ds) = .error .fatalError) := by
  refine ⟨?_, ?_, ?_, ?_⟩
  · intro pre d ds h
    exact extractAllDocs_skip (extractDoc_kind_unparseable h) pre ds
  · intro pre d ds k h hp ha hg
    exact extractAllDocs_skip (extractDoc_generic_unparseable h hp ha hg) pre ds
  · intro pre d ds a hpre h hp
    exact getImagesInPath_fatal (extractDoc_prom_fatal h hp) hpre ds
  · intro pre d ds a hpre h ha
    exact getImagesInPath_fatal (extractDoc_am_fatal h ha) hpre ds

/-- A document with unparseable kind. -/
def c5dKindBad : DocModel :=
  { kindParse := none, promParse := none, amParse := none, genericParse := none }

/-- A generic-kind document whose pod-template parse fails. -/
def c5dGenBad : DocModel :=
  { kindParse := some (strL "Deployment"), promParse := none, amParse := none
  , genericParse := none }

/-- A Prometheus document whose structural parse fails. -/
def c5dPromBad : DocModel :=
  { kindParse := some (strL "Prometheus"), promParse := none, amParse := none
  , genericParse := none }

/-- An Alertmanager document whose structural parse fails. -/
def c5dAmBad : DocModel :=
  { kindParse := some (strL "Alertmanager"), promParse := none, amParse := none
  , genericParse := none }

theorem c5_witness :
    extractAllDocs ([] ++ c5dKindBad :: []) = extractAllDocs ([] ++ [])
  ∧ extractAllDocs ([] ++ c5dGenBad :: []) = extractAllDocs ([] ++ [])
  ∧ GetImagesInPath ([] ++ c5dPromBad :: []) = .error .fatalError
  ∧ GetImagesInPath ([] ++ c5dAmBad :: []) = .error .fatalError :=
  ⟨c5_severity_asymmetry.1 [] c5dKindBad [] rfl,
   c5_severity_asymmetry.2.1 [] c5dGenBad [] (strL "Deployment") rfl (by decide) (by decide) rfl,
   c5_severity_asymmetry.2.2.1 [] c5dPromBad [] [] rfl rfl rfl,
   c5_severity_asymmetry.2.2.2 [] c5dAmBad [] [] rfl rfl rfl⟩

/-- A generic document carrying a container whose image field `nginx`
has no tag. -/
def c3doc : DocModel :=
  { kindParse := some (strL "Deployment"), promParse := none, amParse := none
  , genericParse := some
      { initContainers := [], containers := [{ image := strL "nginx", args := [] }] } }

/-- C3 counterexample: the extraction pipeline does NOT establish the
parser's precondition.  A Deployment whose container image field is the
untagged `nginx` pushes the colon-free string `nginx` through
extraction and deduplication into `marshalImages`, whose crash branch
fires: the whole run panics. -/
theorem c3_counterexample :
    extractAllDocs [c3doc] = .ok [strL "nginx"]
  ∧ ¬ (':' ∈ strL "nginx")
  ∧ marshalOne (strL "nginx") = none
  ∧ GetImagesInPath [c3doc] = .error .panicked :=
  ⟨rfl, by decide, rfl, rfl⟩

/-- C3 (amended): only the Prometheus/Alertmanager branches guarantee
the parser's precondition — each branch's emitted string
`baseImage:version` always contains a `:` — while generic container
image fields are forwarded verbatim, so the parser's crash branch IS
reachable under the program's own extraction pipeline. -/
theorem c3_parser_precondition :
    (∀ (d : DocModel) (p : PromSpecModel),
        d.kindParse = some (strL "Prometheus") → d.promParse = some p →
        extractDoc d = .ok [p.baseImage ++ ':' :: p.version] ∧
          ':' ∈ p.baseImage ++ ':' :: p.version)
  ∧ (∀ (d : DocModel) (a : PromSpecModel),
        d.kindParse = some (strL "Alertmanager") → d.amParse = some a →
        extractDoc d = .ok [a.baseImage ++ ':' :: a.version] ∧
          ':' ∈ a.baseImage ++ ':' :: a.version)
  ∧ GetImagesInPath [c3doc] = .error .panicked := by
  refine ⟨?_, ?_, rfl⟩
  · intro d p h hp
    constructor
    · simp [extractDoc, h, hp]
    · exact List.mem_append_right _ (List.mem_cons_self _ _)
  · intro d a h ha
    constructor
    · have hne : strL "Alertmanager" ≠ strL "Prometheus" := by decide
      simp [extractDoc, h, hne, ha]
    · exact List.mem_append_right _ (List.mem_cons_self _ _)

/-- Concrete Prometheus document used to witness the precondition
theorem. -/
def c3wDoc : DocModel :=
  { kindParse := some (strL "Prometheus")
  , promParse := some { baseImage := strL "quay.io/prometheus/prometheus"
                      , version := strL "v2.0.0" }
  , amParse := none, genericParse := none }

/-- Concrete Alertmanager document used to witness the precondition
theorem. -/
def c3wAmDoc : DocModel :=
  { kindParse := some (strL "Alertmanager")
  , promParse := none
  , amParse := some { baseImage := strL "quay.io/prometheus/alertmanager"
                    , version := strL "v0.15.0" }
  , genericParse := none }

theorem c3_witness :
    (extractDoc c3wDoc = .ok [strL "quay.io/prometheus/prometheus" ++ ':' :: strL "v2.0.0"] ∧
      ':' ∈ strL "quay.io/prometheus/prometheus" ++ ':' :: strL "v2.0.0")
  ∧ (extractDoc c3wAmDoc = .ok [strL "quay.io/prometheus/alertmanager" ++ ':' :: strL "v0.15.0"] ∧
      ':' ∈ strL "quay.io/prometheus/alertmanager" ++ ':' :: strL "v0.15.0") :=
  ⟨c3_parser_precondition.1 c3wDoc
    { baseImage := strL "quay.io/prometheus/prometheus", version := strL "v2.0.0" } rfl rfl,
   c3_parser_precondition.2.1 c3wAmDoc
    { baseImage := strL "quay.io/prometheus/alertmanager", version := strL "v0.15.0" } rfl rfl⟩

/-- C6: deduplication returns exactly the subsequence of first
occurrences under case-insensitive comparison, preserving the original
relative order and the casing of each first occurrence; in particular
`[nginx:1.0, NGINX:1.0]` deduplicates to the single entry `nginx:1.0`. -/
theorem c6_dedupe_first_occurrences :
    (∀ l : List Str, dedupeImages l = specDedup l)
  ∧ dedupeImages [strL "nginx:1.0", strL "NGINX:1.0"] = [strL "nginx:1.0"] :=
  ⟨dedupeImages_eq_specDedup, by decide⟩

/-! ## Document splitting: separator choice -/

/-- The newline-only document separator. -/
def lfSep : Str := strL "\n---\n"

/-- The carriage-return+newline document separator. -/
def crlfSep : Str := strL "\r\n---\r\n"

/-- C9: the file content is split on the three-dash separator line; the
carriage-return+newline separator is honored only when the program runs
on a Windows-like platform AND the content contains a CRLF sequence —
in every other situation the newline-only separator is used, even for
CRLF files — and empty input yields exactly one empty document. -/
theorem c9_doSplit_separator_choice :
    (∀ data : Str, doSplit false data = splitSeq lfSep data)
  ∧ (∀ (isW : Bool) (data : Str), hasSub (strL "\r\n") data = false →
        doSplit isW data = splitSeq lfSep data)
  ∧ (∀ data : Str, hasSub (strL "\r\n") data = true →
        doSplit true data = splitSeq crlfSep data)
  ∧ (∀ isW : Bool, doSplit isW [] = [[]]) := by
  refine ⟨?_, ?_, ?_, ?_⟩
  · intro data
    simp only [doSplit, Bool.and_false]
    rfl
  · intro isW data h
    simp only [doSplit, h, Bool.false_and]
    rfl
  · intro data h
    simp only [doSplit, h, Bool.and_true]
    rfl
  · intro isW
    cases isW <;> rfl

theorem c9_witness :
    doSplit false (strL "ab") = splitSeq lfSep (strL "ab")
  ∧ doSplit true (strL "a\r\nb") = splitSeq crlfSep (strL "a\r\nb") :=
  ⟨c9_doSplit_separator_choice.2.1 false (strL "ab") (by decide),
   c9_doSplit_separator_choice.2.2.1 (strL "a\r\nb") (by decide)⟩

/-- C1 (against the code): when the output path is non-empty and file
creation fails, `writeListToFile` does return an error — but
`runListCommand` discards it (list.go 77) and reports success, so the
process exits zero.  The propagation the claim (and the spec) describe
does not happen. -/
theorem c1_output_error_discarded (images : List DockerImage) (output : Str)
    (h : output ≠ []) :
    runListCommand (.ok images) output true = .ok ()
  ∧ writeListToFile images true = .error .fatalError := by
  constructor
  · simp only [runListCommand, if_pos h]
  · rfl

theorem c1_witness :
    runListCommand (.ok []) (strL "list.txt") true = .ok ()
  ∧ writeListToFile [] true = .error .fatalError :=
  c1_output_error_discarded [] (strL "list.txt") (by decide)

end Sinker
